/-
Verification of the fixed-pool memory allocator in `main.c`
(pool of 65536 bytes, 8-byte alignment, magic 0xDEADBEEF, doubly linked
block list with per-header checksums, first-fit allocation with tail
splitting, free with bidirectional coalescing, fragmentation metric).

Modelling notes.

* The allocator's behaviour depends on the C data layout of
  `block_header_t`.  The main model embeds the ILP32 (i386) build, on
  which `sizeof(block_header_t) = 24` (magic at offset 0, size at 4,
  free at 8, three padding bytes, next at 12, prev at 16, checksum at
  20, no tail padding), so `HEADER_SIZE = 24` and the checksum loop
  bound `sizeof - sizeof(uint32_t) = 20` is exactly the offset of the
  checksum field: the build is self-consistent.  The LP64 (x86-64)
  layout, on which the same expression is 44 while the checksum sits at
  offset 40, is modelled separately at the end (`Header64`), where the
  discrepancy is proved.
* The pool is placed at base address 65536 (any nonzero 8-aligned base;
  a null pointer is modelled as address `0`).  Blocks are kept as a
  Lean list in next-pointer order; the stored `next`/`prev` pointer
  values are recovered from the list neighbours (the code keeps them
  consistent with the chain at all times), while the stored `checksum`
  field is kept explicitly, because the code does not always recompute
  it after a pointer mutation.
* `size_t` arithmetic is 32-bit; every arithmetic step of the code is
  performed modulo `SIZE_MOD = 2^32` exactly where the code performs a
  `size_t` operation.
* `my_free` on a pointer whose header address matches no block in the
  chain is undefined behaviour in C; the model makes it a no-op.  No
  theorem below depends on that case.
-/

import Mathlib

namespace Alloc

/-! ## Configuration constants (main.c lines 15-17, 33) -/

def POOL_SIZE : Nat := 1024 * 64
def ALIGNMENT : Nat := 8
def MAGIC_COOKIE : Nat := 0xDEADBEEF
/-- `sizeof(block_header_t)` rounded up to `ALIGNMENT`; 24 on ILP32. -/
def HEADER_SIZE : Nat := 24
/-- Modulus of `size_t` arithmetic (32-bit build). -/
def SIZE_MOD : Nat := 2 ^ 32
/-- Base address of `memory_pool` (arbitrary nonzero aligned address). -/
def POOL_BASE : Nat := 65536

/-! ## Byte-level checksum (main.c lines 71-78)

`calculate_checksum` sums the raw bytes of the header that precede the
checksum field: magic (4 bytes, little endian), size (4), free (1),
3 padding bytes (zero), next (4), prev (4) - 20 bytes in total, which
is `sizeof(block_header_t) - sizeof(uint32_t)` on ILP32. -/

/-- Little-endian byte decomposition of `v` into `w` bytes. -/
def toBytes (w v : Nat) : List Nat :=
  (List.range w).map (fun i => v / 2 ^ (8 * i) % 256)

def byteSum (l : List Nat) : Nat := l.foldl (· + ·) 0

/-- The header bytes preceding the checksum field (ILP32 layout). -/
def headerBytesPre (magic size fr next prev : Nat) : List Nat :=
  toBytes 4 magic ++ toBytes 4 size ++ [fr % 256] ++ [0, 0, 0] ++
    toBytes 4 next ++ toBytes 4 prev

/-- `calculate_checksum` of main.c, as a function of the header fields
and of the stored `next`/`prev` pointer values. -/
def calculate_checksum (magic size fr next prev : Nat) : Nat :=
  byteSum (headerBytesPre magic size fr next prev) % SIZE_MOD

/-! ## Blocks and allocator state -/

/-- One `block_header_t`.  `addr` is the address of the header inside
the pool; the `next`/`prev` pointer fields are recovered from the
position of the block in the chain, while `checksum` is stored. -/
structure Block where
  addr : Nat
  magic : Nat
  size : Nat
  free : Nat
  checksum : Nat
  deriving DecidableEq, Repr

/-- Address stored in a pointer to the first block of `bs` (`NULL` = 0). -/
def headAddr : List Block → Nat
  | [] => 0
  | b :: _ => b.addr

/-- `verify_header` (main.c lines 80-90): magic check plus checksum
recomputation, given the stored `next`/`prev` pointer values. -/
def verifyH (b : Block) (nextA prevA : Nat) : Bool :=
  b.magic == MAGIC_COOKIE &&
    b.checksum == calculate_checksum b.magic b.size b.free nextA prevA

/-- Store a freshly computed checksum in the header
(`h->checksum = calculate_checksum(h)`). -/
def sealH (b : Block) (nextA prevA : Nat) : Block :=
  { b with checksum := calculate_checksum b.magic b.size b.free nextA prevA }

/-- The global allocator state: the block chain headed at
`free_list_head` plus the accounting globals (main.c lines 46-50). -/
structure AllocState where
  blocks : List Block
  total_allocated : Nat
  total_free : Nat
  allocation_count : Int
  fragmentation_score : Int
  deriving DecidableEq, Repr

/-! ## init_allocator (main.c lines 96-117) -/

def init_allocator : AllocState :=
  let first : Block :=
    sealH { addr := POOL_BASE, magic := MAGIC_COOKIE,
            size := POOL_SIZE - HEADER_SIZE, free := 1, checksum := 0 } 0 0
  { blocks := [first]
    total_allocated := 0
    total_free := POOL_SIZE - HEADER_SIZE
    allocation_count := 0
    fragmentation_score := 0 }

/-! ## my_malloc (main.c lines 123-185) -/

/-- `(size + ALIGNMENT - 1) & ~(ALIGNMENT - 1)` in `size_t` arithmetic. -/
def alignUp (n : Nat) : Nat :=
  (n + (ALIGNMENT - 1)) % SIZE_MOD / ALIGNMENT * ALIGNMENT

/-- The mutation performed on the selected block `b` (lines 153-175):
split the tail into a new free block when the remainder can hold a
header plus one alignment unit, then mark `b` allocated and - in both
cases - set its size to the aligned request.  The old successor (head
of `rest`) gets its `prev` pointer rewritten by the code, but is never
resealed. -/
def splitAlloc (aligned prevA : Nat) (b : Block) (rest : List Block) : List Block :=
  let remaining := b.size - aligned
  if HEADER_SIZE + ALIGNMENT ≤ remaining then
    let nb : Block :=
      sealH { addr := b.addr + HEADER_SIZE + aligned, magic := MAGIC_COOKIE,
              size := remaining - HEADER_SIZE, free := 1, checksum := 0 }
        (headAddr rest) b.addr
    sealH { b with free := 0, size := aligned } nb.addr prevA :: nb :: rest
  else
    sealH { b with free := 0, size := aligned } (headAddr rest) prevA :: rest

/-- The first-fit walk of `my_malloc` (lines 130-148), carrying the
address of the previous block so headers can be verified.  Result:
`none` = corruption abort, `some none` = no suitable block,
`some (some (payload, blocks'))` = success. -/
def mallocGo (aligned : Nat) : Nat → List Block → Option (Option (Nat × List Block))
  | _, [] => some none
  | prevA, b :: rest =>
    if verifyH b (headAddr rest) prevA then
      if b.free ≠ 0 ∧ aligned ≤ b.size then
        some (some (b.addr + HEADER_SIZE, splitAlloc aligned prevA b rest))
      else
        (mallocGo aligned b.addr rest).map (Option.map (fun r => (r.1, b :: r.2)))
    else
      none

def my_malloc (st : AllocState) (n : Nat) : Option Nat × AllocState :=
  if n = 0 then (none, st)
  else
    let aligned := alignUp n
    match mallocGo aligned 0 st.blocks with
    | some (some (payload, bs)) =>
      (some payload,
        { st with
          blocks := bs
          total_allocated := (st.total_allocated + aligned) % SIZE_MOD
          total_free := (st.total_free + (SIZE_MOD - aligned % SIZE_MOD)) % SIZE_MOD
          allocation_count := st.allocation_count + 1 })
    | _ => (none, st)

/-! ## my_free (main.c lines 191-258) -/

/-- The walk of `my_free`: find the header at address `ha`, verify it,
reject double frees, mark it free, then coalesce forward and backward.
`p?` is the block preceding the current suffix (`none` at the head) and
`ppA` the address of the block before `p?`.  The result is the new
version of `p?.toList ++ bs` together with the original size of the
freed block (used for the accounting updates, which the code performs
before coalescing), or `none` when the call leaves the state untouched
(corruption or double free; an address matching no header is UB in C
and modelled as a no-op). -/
def freeGo (ha : Nat) : Nat → Option Block → List Block → Option (List Block × Nat)
  | _, _, [] => none
  | ppA, p?, t :: rest =>
    if t.addr = ha then
      let prevA := match p? with | none => 0 | some p => p.addr
      if verifyH t (headAddr rest) prevA then
        if t.free ≠ 0 then none
        else
          let t1 := sealH { t with free := 1 } (headAddr rest) prevA
          -- forward coalesce (lines 221-236)
          let fc : Block × List Block :=
            match rest with
            | n :: rest2 =>
              if n.free ≠ 0 ∧ verifyH n (headAddr rest2) t.addr then
                (sealH { t1 with size := (t1.size + (HEADER_SIZE + n.size)) % SIZE_MOD }
                   (headAddr rest2) prevA, rest2)
              else (t1, rest)
            | [] => (t1, [])
          -- backward coalesce (lines 239-255)
          match p? with
          | some p =>
            if p.free ≠ 0 ∧ verifyH p t.addr ppA then
              some (sealH { p with size := (p.size + (HEADER_SIZE + fc.1.size)) % SIZE_MOD }
                      (headAddr fc.2) ppA :: fc.2, t.size)
            else
              some (p :: fc.1 :: fc.2, t.size)
          | none => some (fc.1 :: fc.2, t.size)
      else none
    else
      match p? with
      | some p => (freeGo ha p.addr (some t) rest).map (fun r => (p :: r.1, r.2))
      | none => freeGo ha 0 (some t) rest

def freeBlocks (ha : Nat) (bs : List Block) : Option (List Block × Nat) :=
  freeGo ha 0 none bs

def my_free (st : AllocState) (p : Option Nat) : AllocState :=
  match p with
  | none => st
  | some pa =>
    match freeBlocks (pa - HEADER_SIZE) st.blocks with
    | none => st
    | some (bs, s) =>
      { st with
        blocks := bs
        total_allocated := (st.total_allocated + (SIZE_MOD - s % SIZE_MOD)) % SIZE_MOD
        total_free := (st.total_free + s) % SIZE_MOD
        allocation_count := st.allocation_count - 1 }

/-! ## calculate_fragmentation (main.c lines 264-286) -/

/-- The statistics walk: free-block count, total free bytes and largest
free block, counting exactly the blocks that verify and are free. -/
def fragGo : Nat → List Block → Nat × Nat × Nat
  | _, [] => (0, 0, 0)
  | prevA, b :: rest =>
    let acc := fragGo b.addr rest
    if verifyH b (headAddr rest) prevA ∧ b.free ≠ 0 then
      (acc.1 + 1, (acc.2.1 + b.size) % SIZE_MOD, max acc.2.2 b.size)
    else acc

def calculate_fragmentation (st : AllocState) : AllocState :=
  let acc := fragGo 0 st.blocks
  let score : Int :=
    if 1 < acc.1 ∧ 0 < acc.2.1 then
      (100 : Int) - (acc.2.2 * 100 % SIZE_MOD / acc.2.1 : Nat)
    else 0
  { st with fragmentation_score := score }

/-! ## Operation sequences -/

/-- One public call of the allocator. -/
inductive Op where
  | alloc (n : Nat)
  | dealloc (p : Option Nat)
  deriving DecidableEq, Repr

def applyOp (st : AllocState) : Op → AllocState
  | .alloc n => (my_malloc st n).2
  | .dealloc p => my_free st p

/-- State after a finite sequence of calls on a fresh allocator. -/
def runOps (ops : List Op) : AllocState := ops.foldl applyOp init_allocator

/-! ## Observables of the block chain -/

/-- Every block of the chain passes `verify_header`. -/
def allVerify : Nat → List Block → Bool
  | _, [] => true
  | prevA, b :: rest => verifyH b (headAddr rest) prevA && allVerify b.addr rest

/-- `∑ (HEADER_SIZE + b.size)` over the chain: the bytes of the pool
covered by the blocks (spec invariant P1 demands this equals `P`). -/
def coverageSum (bs : List Block) : Nat :=
  (bs.map (fun b => HEADER_SIZE + b.size)).sum

/-- `∑ b.size` over the blocks with `b.free == 0`. -/
def allocatedSum (bs : List Block) : Nat :=
  (bs.map (fun b => if b.free = 0 then b.size else 0)).sum

/-- Number of free blocks. -/
def freeCount (bs : List Block) : Nat :=
  (bs.filter (fun b => b.free != 0)).length

/-- Total free bytes. -/
def freeSum (bs : List Block) : Nat :=
  ((bs.filter (fun b => b.free != 0)).map Block.size).sum

/-- Largest free-block size. -/
def freeMax (bs : List Block) : Nat :=
  ((bs.filter (fun b => b.free != 0)).map Block.size).foldr max 0

/-- First-fit selection as the specification words it: the first block
in address order that is free and large enough (for the refinement
claim about the allocation policy). -/
def specFirstFit (a : Nat) (bs : List Block) : Option Block :=
  bs.find? (fun b => decide (b.free ≠ 0 ∧ a ≤ b.size))

/-! ## The LP64 header layout

On x86-64 (the layout produced by the `gcc` command documented at the
top of main.c), `block_header_t` has magic at offset 0, 4 bytes of
padding, size at 8, free at 16, 7 bytes of padding, next at 24, prev at
32, checksum at 40 and 4 bytes of tail padding: `sizeof` is 48, so the
checksum loop bound `sizeof(block_header_t) - sizeof(uint32_t) = 44`
runs past the checksum field at offset 40. -/

structure Header64 where
  magic : Nat
  size : Nat
  free : Nat
  next : Nat
  prev : Nat
  checksum : Nat
  deriving DecidableEq, Repr

/-- All 48 bytes of the LP64 header record (padding zeroed). -/
def header64Bytes (h : Header64) : List Nat :=
  toBytes 4 h.magic ++ [0, 0, 0, 0] ++ toBytes 8 h.size ++ [h.free % 256] ++
    [0, 0, 0, 0, 0, 0, 0] ++ toBytes 8 h.next ++ toBytes 8 h.prev ++
    toBytes 4 h.checksum ++ [0, 0, 0, 0]

/-- `calculate_checksum` on LP64: a byte-wise sum of the first
`sizeof(block_header_t) - sizeof(uint32_t) = 44` bytes. -/
def calculate_checksum64 (h : Header64) : Nat :=
  byteSum ((header64Bytes h).take 44) % SIZE_MOD

def seal64 (h : Header64) : Header64 :=
  { h with checksum := calculate_checksum64 h }

def verify64 (h : Header64) : Bool :=
  h.magic == MAGIC_COOKIE && h.checksum == calculate_checksum64 h

/-- The header `init_allocator` writes into the (zero-initialised) pool
on LP64, before the checksum store: `HEADER_SIZE` is 48 there. -/
def init_header64 : Header64 :=
  { magic := MAGIC_COOKIE, size := POOL_SIZE - 48, free := 1,
    next := 0, prev := 0, checksum := 0 }

/-- The byte-wise sum over exactly the header bytes preceding the
checksum field (offsets 0 to 39), as the specification defines the
digest - for comparison with `calculate_checksum64`. -/
def specDigest64 (h : Header64) : Nat :=
  byteSum ((header64Bytes h).take 40) % SIZE_MOD

/-! ## Concrete tampered states

States used to exercise the corruption paths: the state reached by
`my_malloc(128)` on a fresh allocator, with one of the two headers'
stored checksum overwritten (as an external corruptor would). -/

/-- The allocated head block after `my_malloc(128)` on a fresh
allocator (checksum as sealed by the code). -/
def allocHead128 : Block :=
  { addr := 65536, magic := MAGIC_COOKIE, size := 128, free := 0, checksum := 1105 }

/-- The trailing free block after `my_malloc(128)` on a fresh allocator
(checksum as sealed by the code). -/
def tailAfter128 : Block :=
  { addr := 65688, magic := MAGIC_COOKIE, size := 65360, free := 1, checksum := 1161 }

/-- The trailing free block with its stored checksum damaged. -/
def tailCorrupt : Block := { tailAfter128 with checksum := 1162 }

/-- State after `my_malloc(128)`, with the trailing free block's
checksum damaged by an external corruptor. -/
def corruptNextState : AllocState :=
  { blocks := [allocHead128, tailCorrupt], total_allocated := 128, total_free := 65384,
    allocation_count := 1, fragmentation_score := 0 }

/-- State after `my_malloc(128)`, with the allocated head block's
checksum damaged by an external corruptor. -/
def corruptHeadState : AllocState :=
  { blocks := [{ allocHead128 with checksum := 1106 }, tailAfter128],
    total_allocated := 128, total_free := 65384,
    allocation_count := 1, fragmentation_score := 0 }

/-- A single block whose magic is wrong (fails `verify_header`). -/
def badMagicBlock : Block :=
  { addr := 65536, magic := 0, size := 128, free := 1, checksum := 0 }

/-- Address of the last block of `pre`, falling back to the (optional)
block preceding `pre`, and to `NULL` = 0: the `prev` pointer value
stored in the block that follows the prefix. -/
def lastAddrFrom (p? : Option Block) (pre : List Block) : Nat :=
  match pre.getLast? with
  | some u => u.addr
  | none =>
    match p? with
    | some p => p.addr
    | none => 0

/-- Address of the last block of a chain prefix (`NULL` = 0 when the
prefix is empty). -/
def lastAddr (pre : List Block) : Nat := lastAddrFrom none pre

/-- The inductive invariant of reachable states: the chain is nonempty,
covers at most the pool (the code can leak coverage, so only `≤` is
invariant), `total_allocated` tracks the payload bytes of the
non-free blocks, and `total_allocated + total_free` is the constant
`POOL_SIZE - HEADER_SIZE`. -/
def Inv (st : AllocState) : Prop :=
  st.blocks ≠ [] ∧
  coverageSum st.blocks ≤ POOL_SIZE ∧
  st.total_allocated = allocatedSum st.blocks ∧
  st.total_allocated + st.total_free = POOL_SIZE - HEADER_SIZE

/-! # Theorems -/

/-! ## Helper lemmas about the chain observables -/

@[simp] theorem sealH_addr (b : Block) (nA pA : Nat) : (sealH b nA pA).addr = b.addr := rfl

@[simp] theorem sealH_size (b : Block) (nA pA : Nat) : (sealH b nA pA).size = b.size := rfl

@[simp] theorem sealH_free (b : Block) (nA pA : Nat) : (sealH b nA pA).free = b.free := rfl

@[simp] theorem sealH_magic (b : Block) (nA pA : Nat) : (sealH b nA pA).magic = b.magic := rfl

@[simp] theorem allocatedSum_nil : allocatedSum [] = 0 := rfl

@[simp] theorem allocatedSum_cons (b : Block) (bs : List Block) :
    allocatedSum (b :: bs) = (if b.free = 0 then b.size else 0) + allocatedSum bs := by
  simp [allocatedSum]

@[simp] theorem coverageSum_nil : coverageSum [] = 0 := rfl

@[simp] theorem coverageSum_cons (b : Block) (bs : List Block) :
    coverageSum (b :: bs) = (HEADER_SIZE + b.size) + coverageSum bs := by
  simp [coverageSum]

theorem allocatedSum_le_coverageSum (bs : List Block) :
    allocatedSum bs ≤ coverageSum bs := by
  induction bs with
  | nil => simp
  | cons b rest ih =>
    have : (if b.free = 0 then b.size else 0) ≤ HEADER_SIZE + b.size := by
      split <;> omega
    simp only [allocatedSum_cons, coverageSum_cons]
    omega

/-- C1 (code bug): the coverage invariant `∑ (H + size) = P` is broken
by the code.  `my_malloc(65504)` on a fresh allocator finds a remainder
of `8 < HEADER_SIZE + ALIGNMENT` bytes, creates no successor block, yet
still shrinks the block's size to the aligned request (main.c line 174
runs unconditionally), so 8 bytes of the pool are covered by no block:
the walked coverage sum is 65528, not 65536. -/
theorem coverage_gap_after_truncating_alloc :
    coverageSum (runOps [Op.alloc 65504]).blocks = POOL_SIZE - 8 ∧
    coverageSum (runOps [Op.alloc 65504]).blocks ≠ POOL_SIZE := by
  constructor <;> decide

/-- C2 (code bug): when the remainder is below `HEADER_SIZE +
ALIGNMENT` no split occurs, but `b.size` is NOT left unchanged: the
code shrinks it to the aligned request anyway, discarding the
remainder instead of retaining it as internal waste.  On a fresh
allocator `my_malloc(65504)` leaves a single block (no split) whose
size has shrunk from 65512 to 65504. -/
theorem no_split_still_shrinks_size :
    init_allocator.blocks.map Block.size = [65512] ∧
    65512 - 65504 < HEADER_SIZE + ALIGNMENT ∧
    (my_malloc init_allocator 65504).2.blocks.map Block.size = [65504] := by
  refine ⟨by decide, by decide, by decide⟩

/-- C3 (code bug): the checksum of a neighbour whose `prev` link is
rewritten during a split is NOT recomputed (main.c lines 164-166 have
no reseal), so the integrity invariant fails on an uncorrupted pool.
After `p1 = malloc(128); p2 = malloc(128); free(p1)` every block
verifies, but the subsequent `malloc(64)` splits the first block and
rewrites the old successor's `prev` without resealing it: from then on
that block fails `verify_header`. -/
theorem split_leaves_stale_neighbor_checksum :
    allVerify 0 (runOps [Op.alloc 128, Op.alloc 128,
      Op.dealloc (some 65560)]).blocks = true ∧
    allVerify 0 (runOps [Op.alloc 128, Op.alloc 128,
      Op.dealloc (some 65560), Op.alloc 64]).blocks = false := by
  refine ⟨by decide, by decide⟩

/-- C4 (counterexample): the claimed identity `total_allocated +
total_free + H × block_count = P` fails after the very first splitting
allocation: after `malloc(8)` the left side is `8 + 65504 + 24·2 =
65560 ≠ 65536`, because the accounting tracks payload bytes only and
never charges the header of a split-created block. -/
theorem accounting_identity_fails_after_split :
    (runOps [Op.alloc 8]).total_allocated + (runOps [Op.alloc 8]).total_free +
      HEADER_SIZE * (runOps [Op.alloc 8]).blocks.length ≠ POOL_SIZE := by
  decide

/-- C5 (counterexample): a failed `verify_header` on a block reached
via a `next` link during coalescing does NOT leave the state unchanged.
With the trailing free block's checksum damaged, `my_free` of the valid
head block verifies the damaged neighbour (it is free, so the forward
coalesce tests it), the check fails, the merge is skipped - but the
free itself and its accounting updates persist, so the state differs
from the state before the call. -/
theorem free_mutates_despite_corrupt_neighbor :
    verifyH tailCorrupt 0 65536 = false ∧
    tailCorrupt.free ≠ 0 ∧
    my_free corruptNextState (some 65560) ≠ corruptNextState := by
  refine ⟨by decide, by decide, by decide⟩

/-- C7 (code bug): on the LP64 layout produced by the documented `gcc`
build, the checksum loop covers `sizeof(block_header_t) -
sizeof(uint32_t) = 44` bytes while the checksum field sits at offset
40, so the digest covers the checksum field's own bytes (it differs
from the byte-wise sum over exactly the pre-checksum bytes), and a
header sealed by the code's own `init_allocator` immediately fails
`verify_header`. -/
theorem checksum64_covers_its_own_field :
    verify64 (seal64 init_header64) = false ∧
    calculate_checksum64 (seal64 init_header64) ≠ specDigest64 (seal64 init_header64) := by
  refine ⟨by decide, by decide⟩

/-- C8 (code bug): a request so large that the alignment rounding wraps
`size_t` does not fail.  `my_malloc(2^32 - 1)` computes
`aligned_size = 0`, selects the first free block, splits it, mutates
the state and returns a payload pointer - which moreover equals the
address of the newly created header. -/
theorem oversize_wrap_returns_pointer :
    POOL_SIZE - HEADER_SIZE < 4294967295 ∧
    (my_malloc init_allocator 4294967295).1 = some 65560 ∧
    (my_malloc init_allocator 4294967295).2 ≠ init_allocator := by
  refine ⟨by decide, by decide, by decide⟩

/-! ## my_malloc and the invariant -/

/-- A successful first-fit walk adds the aligned request to the
allocated payload sum, never increases the coverage, leaves at least
`HEADER_SIZE + aligned` slack between the allocated sum and the
coverage, and returns a nonempty chain. -/
theorem mallocGo_ok {a : Nat} :
    ∀ (bs : List Block) (pA p : Nat) (bs' : List Block),
      mallocGo a pA bs = some (some (p, bs')) →
      allocatedSum bs' = allocatedSum bs + a ∧
      coverageSum bs' ≤ coverageSum bs ∧
      allocatedSum bs + HEADER_SIZE + a ≤ coverageSum bs ∧
      bs' ≠ [] := by
  intro bs
  induction bs with
  | nil => intro pA p bs' h; simp [mallocGo] at h
  | cons b rest ih =>
    intro pA p bs' h
    have hale := allocatedSum_le_coverageSum rest
    simp only [mallocGo] at h
    split at h
    · split at h
      · -- selected here
        rename_i hver hfit
        obtain ⟨hfree, hsz⟩ := hfit
        rw [Option.some.injEq, Option.some.injEq, Prod.mk.injEq] at h
        obtain ⟨hp, hbs⟩ := h
        subst hbs
        simp only [splitAlloc]
        split
        · rename_i hrem
          simp [allocatedSum_cons, coverageSum_cons, if_neg hfree]
          omega
        · rename_i hrem
          simp [allocatedSum_cons, coverageSum_cons, if_neg hfree]
          omega
      · -- not selected: recurse
        rename_i hver hfit
        cases hrec : mallocGo a b.addr rest with
        | none => rw [hrec] at h; simp at h
        | some o =>
          cases o with
          | none => rw [hrec] at h; simp at h
          | some pr =>
            rw [hrec] at h
            simp only [Option.map_some, Option.some.injEq, Option.map] at h
            rw [Prod.mk.injEq] at h
            obtain ⟨hp, hbs⟩ := h
            subst hbs
            obtain ⟨e1, e2, e3, e4⟩ := ih b.addr pr.1 pr.2 (by rw [hrec])
            have hcb : (if b.free = 0 then b.size else 0) ≤ HEADER_SIZE + b.size := by
              split <;> omega
            simp only [allocatedSum_cons, coverageSum_cons]
            refine ⟨by omega, by omega, by omega, by simp⟩
    · simp at h

/-- `my_malloc` preserves the accounting invariant. -/
theorem malloc_preserves_inv (st : AllocState) (n : Nat) (hinv : Inv st) :
    Inv (my_malloc st n).2 := by
  obtain ⟨hne, hcov, hta, hsum⟩ := hinv
  unfold my_malloc
  split
  · exact ⟨hne, hcov, hta, hsum⟩
  · cases hm : mallocGo (alignUp n) 0 st.blocks with
    | none => simp only [hm]; exact ⟨hne, hcov, hta, hsum⟩
    | some o =>
      cases o with
      | none => simp only [hm]; exact ⟨hne, hcov, hta, hsum⟩
      | some pr =>
        simp only [hm]
        obtain ⟨e1, e2, e3, e4⟩ := mallocGo_ok st.blocks 0 pr.1 pr.2 (by rw [hm])
        have hale := allocatedSum_le_coverageSum st.blocks
        have hP : POOL_SIZE = 65536 := rfl
        have hH : HEADER_SIZE = 24 := rfl
        have hW : SIZE_MOD = 4294967296 := rfl
        refine ⟨by simpa using e4, ?_, ?_, ?_⟩
        · dsimp only; omega
        · dsimp only; rw [hW]; omega
        · dsimp only; rw [hW]; omega

/-! ## my_free and the invariant -/

/-- A successful free walk removes the freed block's size from the
allocated payload sum, preserves the coverage exactly (coalescing folds
the absorbed header into the merged size), and returns a nonempty
chain.  The hypothesis bounds the coverage so that the `size_t`
additions of the coalescing steps cannot wrap. -/
theorem freeGo_ok {ha : Nat} :
    ∀ (bs : List Block) (ppA : Nat) (p? : Option Block) (out : List Block) (s : Nat),
      coverageSum (p?.toList ++ bs) ≤ POOL_SIZE →
      freeGo ha ppA p? bs = some (out, s) →
      allocatedSum out + s = allocatedSum (p?.toList ++ bs) ∧
      s ≤ allocatedSum (p?.toList ++ bs) ∧
      coverageSum out = coverageSum (p?.toList ++ bs) ∧
      out ≠ [] := by
  intro bs
  induction bs with
  | nil =>
    intro ppA p? out s hcov h
    simp [freeGo] at h
  | cons t rest ih =>
    intro ppA p? out s hcov h
    have hP : POOL_SIZE = 65536 := rfl
    have hH : HEADER_SIZE = 24 := rfl
    have hW : SIZE_MOD = 4294967296 := rfl
    by_cases hta : t.addr = ha
    · -- the freed block is the head of the current suffix
      cases p? with
      | none =>
        simp only [Option.toList_none, List.nil_append] at hcov ⊢
        cases rest with
        | nil =>
          simp only [freeGo, if_pos hta] at h
          split at h
          · split at h
            · simp at h
            · rename_i htf
              have ht0 : t.free = 0 := by simpa using htf
              rw [Option.some.injEq, Prod.mk.injEq] at h
              obtain ⟨ho, hs⟩ := h
              subst ho; subst hs
              simp [ht0]
          · simp at h
        | cons n rest2 =>
          simp only [freeGo, if_pos hta] at h
          split at h
          · split at h
            · simp at h
            · rename_i htf
              have ht0 : t.free = 0 := by simpa using htf
              split at h
              · rename_i hmerge
                rw [Option.some.injEq, Prod.mk.injEq] at h
                obtain ⟨ho, hs⟩ := h
                subst ho; subst hs
                simp [allocatedSum_cons, coverageSum_cons, ht0, if_neg hmerge.1,
                  hP, hH, hW] at hcov ⊢
                omega
              · rename_i hmerge
                rw [Option.some.injEq, Prod.mk.injEq] at h
                obtain ⟨ho, hs⟩ := h
                subst ho; subst hs
                simp [allocatedSum_cons, coverageSum_cons, ht0]
                omega
          · simp at h
      | some p =>
        simp only [Option.toList_some, List.cons_append, List.nil_append] at hcov ⊢
        cases rest with
        | nil =>
          simp only [freeGo, if_pos hta] at h
          split at h
          · split at h
            · simp at h
            · rename_i htf
              have ht0 : t.free = 0 := by simpa using htf
              split at h
              · rename_i hback
                rw [Option.some.injEq, Prod.mk.injEq] at h
                obtain ⟨ho, hs⟩ := h
                subst ho; subst hs
                simp [allocatedSum_cons, coverageSum_cons, ht0, if_neg hback.1,
                  hP, hH, hW] at hcov ⊢
                omega
              · rename_i hback
                rw [Option.some.injEq, Prod.mk.injEq] at h
                obtain ⟨ho, hs⟩ := h
                subst ho; subst hs
                simp [allocatedSum_cons, coverageSum_cons, ht0]
          · simp at h
        | cons n rest2 =>
          simp only [freeGo, if_pos hta] at h
          split at h
          · split at h
            · simp at h
            · rename_i htf
              have ht0 : t.free = 0 := by simpa using htf
              split at h
              · rename_i hmerge
                split at h
                · rename_i hback
                  rw [Option.some.injEq, Prod.mk.injEq] at h
                  obtain ⟨ho, hs⟩ := h
                  subst ho; subst hs
                  simp [allocatedSum_cons, coverageSum_cons, ht0, if_neg hmerge.1,
                    if_neg hback.1, hP, hH, hW] at hcov ⊢
                  omega
                · rename_i hback
                  rw [Option.some.injEq, Prod.mk.injEq] at h
                  obtain ⟨ho, hs⟩ := h
                  subst ho; subst hs
                  simp [allocatedSum_cons, coverageSum_cons, ht0, if_neg hmerge.1,
                    hP, hH, hW] at hcov ⊢
                  omega
              · rename_i hmerge
                split at h
                · rename_i hback
                  rw [Option.some.injEq, Prod.mk.injEq] at h
                  obtain ⟨ho, hs⟩ := h
                  subst ho; subst hs
                  simp [allocatedSum_cons, coverageSum_cons, ht0, if_neg hback.1,
                    hP, hH, hW] at hcov ⊢
                  omega
                · rename_i hback
                  rw [Option.some.injEq, Prod.mk.injEq] at h
                  obtain ⟨ho, hs⟩ := h
                  subst ho; subst hs
                  simp [allocatedSum_cons, coverageSum_cons, ht0]
                  omega
          · simp at h
    · -- keep walking
      cases p? with
      | none =>
        simp only [freeGo, if_neg hta] at h
        have := ih 0 (some t) out s (by simpa using hcov) h
        simpa using this
      | some p =>
        simp only [freeGo, if_neg hta] at h
        cases hrec : freeGo ha p.addr (some t) rest with
        | none => rw [hrec] at h; simp at h
        | some r =>
          rw [hrec] at h
          simp only [Option.map_some, Option.some.injEq, Option.map] at h
          rw [Prod.mk.injEq] at h
          obtain ⟨ho, hs⟩ := h
          subst ho; subst hs
          obtain ⟨e1, e2, e3, e4⟩ := ih p.addr (some t) r.1 r.2 (by simp at hcov ⊢; omega) hrec
          simp only [Option.toList_some, List.cons_append, List.nil_append,
            allocatedSum_cons, coverageSum_cons] at e1 e2 e3 ⊢
          refine ⟨by omega, by omega, by omega, by simp⟩

/-- `my_free` preserves the accounting invariant. -/
theorem free_preserves_inv (st : AllocState) (p : Option Nat) (hinv : Inv st) :
    Inv (my_free st p) := by
  obtain ⟨hne, hcov, hta, hsum⟩ := hinv
  unfold my_free
  cases p with
  | none => exact ⟨hne, hcov, hta, hsum⟩
  | some pa =>
    dsimp only
    cases hf : freeBlocks (pa - HEADER_SIZE) st.blocks with
    | none => simp only [hf]; exact ⟨hne, hcov, hta, hsum⟩
    | some r =>
      obtain ⟨out, s⟩ := r
      simp only [hf]
      obtain ⟨e1, e2, e3, e4⟩ :=
        freeGo_ok st.blocks 0 none out s (by simpa using hcov) hf
      simp only [Option.toList_none, List.nil_append] at e1 e2 e3
      have hale := allocatedSum_le_coverageSum st.blocks
      have hP : POOL_SIZE = 65536 := rfl
      have hH : HEADER_SIZE = 24 := rfl
      have hW : SIZE_MOD = 4294967296 := rfl
      refine ⟨e4, ?_, ?_, ?_⟩
      · dsimp only; omega
      · dsimp only; rw [hW]; omega
      · dsimp only; rw [hW]; omega

/-! ## The invariant holds in every reachable state -/

theorem applyOp_preserves_inv (st : AllocState) (op : Op) (hinv : Inv st) :
    Inv (applyOp st op) := by
  cases op with
  | alloc n => exact malloc_preserves_inv st n hinv
  | dealloc p => exact free_preserves_inv st p hinv

theorem init_inv : Inv init_allocator :=
  ⟨by decide, by decide, by decide, by decide⟩

theorem runOps_inv (ops : List Op) : Inv (runOps ops) := by
  have h : ∀ st, Inv st → Inv (ops.foldl applyOp st) := by
    induction ops with
    | nil => intro st h; exact h
    | cons op rest ih => intro st h; exact ih _ (applyOp_preserves_inv st op h)
  exact h init_allocator init_inv

/-- C4 (amended): what the accounting actually satisfies after every
finite sequence of calls on a fresh allocator: `total_allocated` is the
sum of `b.size` over the blocks with `b.free == 0`, and
`total_allocated + total_free` is the constant `POOL_SIZE -
HEADER_SIZE` (the header overhead of the initial block only; the
headers of split-created blocks are never charged, which is exactly why
the claimed identity with `HEADER_SIZE × block_count` fails as soon as
a split creates a second block). -/
theorem accounting_payload_identity (ops : List Op) :
    (runOps ops).total_allocated = allocatedSum (runOps ops).blocks ∧
    (runOps ops).total_allocated + (runOps ops).total_free =
      POOL_SIZE - HEADER_SIZE :=
  ⟨(runOps_inv ops).2.2.1, (runOps_inv ops).2.2.2⟩

/-! ## Corruption aborts -/

theorem lastAddrFrom_cons (p? : Option Block) (u : Block) (pre : List Block) :
    lastAddrFrom p? (u :: pre) = lastAddrFrom (some u) pre := by
  cases pre with
  | nil => rfl
  | cons v pre' =>
    cases h : (v :: pre').getLast? with
    | none => simp at h
    | some w => simp [lastAddrFrom, List.getLast?_cons_cons, h]

/-- If the walk of `my_free` reaches the addressed header without
finding the address earlier, and that header fails `verify_header`
(its stored `prev` value being the address of the block before it),
the walk aborts. -/
theorem freeGo_not_verified {ha : Nat} :
    ∀ (pre : List Block) (t : Block) (post : List Block) (ppA : Nat) (p? : Option Block),
      t.addr = ha →
      (∀ u ∈ pre, u.addr ≠ ha) →
      verifyH t (headAddr post) (lastAddrFrom p? pre) = false →
      freeGo ha ppA p? (pre ++ t :: post) = none := by
  intro pre
  induction pre with
  | nil =>
    intro t post ppA p? hta hpre hv
    cases p? with
    | none =>
      have hv' : verifyH t (headAddr post) 0 = false := hv
      simp [freeGo, if_pos hta, hv']
    | some p =>
      have hv' : verifyH t (headAddr post) p.addr = false := hv
      simp [freeGo, if_pos hta, hv']
  | cons u pre' ih =>
    intro t post ppA p? hta hpre hv
    have hu : u.addr ≠ ha := hpre u (by simp)
    have hpre' : ∀ v ∈ pre', v.addr ≠ ha := fun v hv' => hpre v (by simp [hv'])
    rw [lastAddrFrom_cons] at hv
    cases p? with
    | none =>
      simp only [List.cons_append, freeGo, if_neg hu]
      exact ih t post 0 (some u) hta hpre' hv
    | some p =>
      simp only [List.cons_append, freeGo, if_neg hu]
      have hrec := ih t post p.addr (some u) hta hpre' hv
      simp [hrec]

/-- C5 (amended): a failed `verify_header` on the block reached during
`my_malloc`'s traversal, or on the header derived from the payload
passed to `my_free`, aborts the operation with the state left exactly
as before the call.  (A failed verify on a neighbour examined during
coalescing, by contrast, only skips that merge: the counterexample
shows the free itself persists.) -/
theorem corrupt_abort_leaves_state (st : AllocState) :
    (∀ n, mallocGo (alignUp n) 0 st.blocks = none → my_malloc st n = (none, st)) ∧
    (∀ pre t post, st.blocks = pre ++ t :: post →
      (∀ u ∈ pre, u.addr ≠ t.addr) →
      verifyH t (headAddr post) (lastAddr pre) = false →
      my_free st (some (t.addr + HEADER_SIZE)) = st) := by
  constructor
  · intro n hm
    unfold my_malloc
    split
    · rfl
    · simp only [hm]
  · intro pre t post hbs hpre hv
    have haddr : t.addr + HEADER_SIZE - HEADER_SIZE = t.addr := by omega
    have hnone : freeBlocks (t.addr + HEADER_SIZE - HEADER_SIZE) st.blocks = none := by
      rw [haddr, hbs]
      exact freeGo_not_verified pre t post 0 none rfl hpre hv
    unfold my_free
    simp only [hnone]

/-- Witness for the corruption-abort theorem: with the head block's
stored checksum damaged, both a `my_malloc` (which verifies the head of
the chain first) and a `my_free` of the head block's payload abort and
leave the state untouched. -/
theorem corrupt_abort_leaves_state_witness :
    my_malloc corruptHeadState 16 = (none, corruptHeadState) ∧
    my_free corruptHeadState (some 65560) = corruptHeadState := by
  constructor
  · exact (corrupt_abort_leaves_state corruptHeadState).1 16 (by decide)
  · exact (corrupt_abort_leaves_state corruptHeadState).2 []
      { allocHead128 with checksum := 1106 } [tailAfter128]
      (by decide) (by simp) (by decide)

/-! ## First-fit selection -/

/-- On a chain whose blocks all verify, the walk of `my_malloc` cannot
abort and selects exactly the first free block whose size is at least
the aligned request, returning its payload address. -/
theorem mallocGo_firstFit {a : Nat} :
    ∀ (bs : List Block) (pA : Nat), allVerify pA bs = true →
      ∃ r, mallocGo a pA bs = some r ∧
        Option.map Prod.fst r =
          (bs.find? (fun b => decide (b.free ≠ 0 ∧ a ≤ b.size))).map
            (fun b => b.addr + HEADER_SIZE) := by
  intro bs
  induction bs with
  | nil => intro pA hv; exact ⟨none, rfl, by simp⟩
  | cons b rest ih =>
    intro pA hv
    simp only [allVerify, Bool.and_eq_true] at hv
    obtain ⟨hvb, hvrest⟩ := hv
    by_cases hfit : b.free ≠ 0 ∧ a ≤ b.size
    · refine ⟨some (b.addr + HEADER_SIZE, splitAlloc a pA b rest),
        by simp [mallocGo, hvb, hfit], ?_⟩
      rw [List.find?_cons_of_pos _ (by simpa using hfit)]
      simp
    · obtain ⟨r, hr, hmap⟩ := ih b.addr hvrest
      refine ⟨r.map (fun x => (x.1, b :: x.2)), by simp [mallocGo, hvb, hfit, hr], ?_⟩
      rw [List.find?_cons_of_neg _ (by simpa using hfit)]
      cases r with
      | none => simpa using hmap
      | some x => simpa using hmap

/-- C6: first-fit policy.  For a positive request on a chain whose
blocks all verify, `my_malloc` returns exactly the payload address of
the first block in address order that is free and at least as large as
the aligned request (`none` when no block satisfies it), and - when the
rounding does not wrap `size_t` - the aligned request is
`round_up(n, ALIGNMENT)`. -/
theorem malloc_first_fit (st : AllocState) (n : Nat) (h0 : 0 < n)
    (hv : allVerify 0 st.blocks = true) :
    (my_malloc st n).1 =
      (specFirstFit (alignUp n) st.blocks).map (fun b => b.addr + HEADER_SIZE) ∧
    (n + 7 < SIZE_MOD → alignUp n = (n + 7) / 8 * 8) := by
  constructor
  · obtain ⟨r, hr, hmap⟩ := mallocGo_firstFit (a := alignUp n) st.blocks 0 hv
    unfold my_malloc
    rw [if_neg (by omega)]
    simp only [hr]
    cases r with
    | none => simpa [specFirstFit] using hmap
    | some x => simpa [specFirstFit] using hmap
  · intro hw
    unfold alignUp
    rw [Nat.mod_eq_of_lt (by simpa [ALIGNMENT] using hw)]
    simp [ALIGNMENT]

/-- Witness for the first-fit theorem: on a fresh allocator a request
of 5 bytes is aligned to 8 and served from the single (first) free
block, whose payload starts at `POOL_BASE + HEADER_SIZE = 65560`. -/
theorem malloc_first_fit_witness :
    (my_malloc init_allocator 5).1 = some 65560 ∧ alignUp 5 = 8 := by
  have h := malloc_first_fit init_allocator 5 (by decide) (by decide)
  exact ⟨h.1.trans (by decide), (h.2 (by decide)).trans (by decide)⟩

/-! ## The fragmentation metric -/

theorem foldr_max_le_sum (l : List Nat) : l.foldr max 0 ≤ l.sum := by
  induction l with
  | nil => simp
  | cons x xs ih =>
    simp only [List.foldr_cons, List.sum_cons]
    omega

/-- On a chain whose blocks all verify, the statistics walk of
`calculate_fragmentation` accumulates exactly the free-block count, the
total free bytes (as `size_t`) and the largest free-block size. -/
theorem fragGo_spec :
    ∀ (bs : List Block) (pA : Nat), allVerify pA bs = true →
      fragGo pA bs = (freeCount bs, freeSum bs % SIZE_MOD, freeMax bs) := by
  intro bs
  induction bs with
  | nil => intro pA hv; rfl
  | cons b rest ih =>
    intro pA hv
    simp only [allVerify, Bool.and_eq_true] at hv
    obtain ⟨hvb, hvrest⟩ := hv
    have hW : SIZE_MOD = 4294967296 := rfl
    by_cases hbf : b.free ≠ 0
    · have hfb : (b.free != 0) = true := by simpa using hbf
      have hc : freeCount (b :: rest) = freeCount rest + 1 := by
        simp [freeCount, List.filter_cons, hfb]
      have hs : freeSum (b :: rest) = b.size + freeSum rest := by
        simp [freeSum, List.filter_cons, hfb]
      have hm : freeMax (b :: rest) = max b.size (freeMax rest) := by
        simp [freeMax, List.filter_cons, hfb]
      simp only [fragGo, ih b.addr hvrest, if_pos (And.intro hvb hbf), hc, hs, hm,
        Prod.mk.injEq]
      refine ⟨by trivial, ?_, ?_⟩
      · rw [hW]; omega
      · exact Nat.max_comm _ _
    · have hcond : ¬(verifyH b (headAddr rest) pA = true ∧ b.free ≠ 0) := by
        intro hc; exact hbf hc.2
      simp only [fragGo, ih b.addr hvrest, if_neg hcond]
      have hfb : (b.free != 0) = false := by simpa using hbf
      simp [freeCount, freeSum, freeMax, List.filter_cons, hfb]

/-- The score arithmetic, isolated: for `L ≤ F ≤ 65536` the `size_t`
expression the code stores agrees with `100 - ⌊100·L/F⌋` under the
claimed guard, and lies in `[0, 100]`. -/
theorem score_formula (k F L : Nat) (hLF : L ≤ F) (hFP : F ≤ 65536) :
    ((if 1 < k ∧ 0 < F % SIZE_MOD then
        (100 : Int) - (L * 100 % SIZE_MOD / (F % SIZE_MOD) : Nat) else 0) =
      (if k ≤ 1 ∨ F = 0 then 0 else (100 : Int) - (100 * L / F : Nat))) ∧
    (0 : Int) ≤ (if 1 < k ∧ 0 < F % SIZE_MOD then
        (100 : Int) - (L * 100 % SIZE_MOD / (F % SIZE_MOD) : Nat) else 0) ∧
    (if 1 < k ∧ 0 < F % SIZE_MOD then
        (100 : Int) - (L * 100 % SIZE_MOD / (F % SIZE_MOD) : Nat) else 0) ≤ 100 := by
  have hW : SIZE_MOD = 4294967296 := rfl
  have hF : F % SIZE_MOD = F := Nat.mod_eq_of_lt (by omega)
  have hL : L * 100 % SIZE_MOD = L * 100 := Nat.mod_eq_of_lt (by rw [hW]; omega)
  rw [hF, hL]
  by_cases hk : 1 < k ∧ 0 < F
  · have hq : L * 100 / F ≤ 100 := by
      have h1 : L * 100 ≤ F * 100 := Nat.mul_le_mul_right 100 hLF
      have h2 : F * 100 / F = 100 := by
        rw [Nat.mul_comm]
        exact Nat.mul_div_cancel 100 hk.2
      exact le_trans (Nat.div_le_div_right h1) (le_of_eq h2)
    have hqc : ((L * 100 / F : Nat) : Int) ≤ 100 := by exact_mod_cast hq
    have hq0 : (0 : Int) ≤ ((L * 100 / F : Nat) : Int) := Int.natCast_nonneg _
    rw [if_pos hk, if_neg (by omega)]
    refine ⟨by rw [Nat.mul_comm], ?_, ?_⟩
    · exact sub_nonneg.mpr hqc
    · exact sub_le_self 100 hq0
  · rw [if_neg hk, if_pos (by omega)]
    exact ⟨rfl, le_refl 0, by omega⟩

/-- C9: the fragmentation metric.  On a chain whose blocks all verify
and whose total free bytes fit in the pool, `calculate_fragmentation`
stores 0 when the free-block count is at most 1 or the free total is 0,
and `100 - ⌊100·L/F⌋` otherwise, and the stored score always lies in
`[0, 100]`. -/
theorem fragmentation_score_spec (st : AllocState)
    (hv : allVerify 0 st.blocks = true)
    (hb : freeSum st.blocks ≤ POOL_SIZE) :
    (calculate_fragmentation st).fragmentation_score =
      (if freeCount st.blocks ≤ 1 ∨ freeSum st.blocks = 0 then 0
       else (100 : Int) - (100 * freeMax st.blocks / freeSum st.blocks : Nat)) ∧
    0 ≤ (calculate_fragmentation st).fragmentation_score ∧
    (calculate_fragmentation st).fragmentation_score ≤ 100 := by
  have hP : POOL_SIZE = 65536 := rfl
  have h := score_formula (freeCount st.blocks) (freeSum st.blocks) (freeMax st.blocks)
    (foldr_max_le_sum _) (by omega)
  unfold calculate_fragmentation
  rw [fragGo_spec st.blocks 0 hv]
  exact h

/-- Witness for the fragmentation theorem: after
`p1 = malloc(128); p2 = malloc(128); free(p1)` the chain verifies, has
two free blocks (128 and 65208 bytes, total 65336), and the stored
score is `100 - ⌊100·65208/65336⌋ = 1`. -/
theorem fragmentation_score_spec_witness :
    (calculate_fragmentation (runOps [Op.alloc 128, Op.alloc 128,
      Op.dealloc (some 65560)])).fragmentation_score = 1 ∧
    (0 : Int) ≤ (calculate_fragmentation (runOps [Op.alloc 128, Op.alloc 128,
      Op.dealloc (some 65560)])).fragmentation_score := by
  have h := fragmentation_score_spec
    (runOps [Op.alloc 128, Op.alloc 128, Op.dealloc (some 65560)])
    (by decide) (by decide)
  exact ⟨h.1.trans (by decide), h.2.1⟩

/-- C10: the statistics walk of `calculate_fragmentation` mutates none
of the block chain, the byte accounting or the allocation count, and a
block that fails `verify_header` contributes nothing to the free-block
count, free total or largest-block figures while the walk continues
through it to the rest of the chain. -/
theorem fragmentation_skips_corrupt (st : AllocState) :
    (calculate_fragmentation st).blocks = st.blocks ∧
    (calculate_fragmentation st).total_allocated = st.total_allocated ∧
    (calculate_fragmentation st).total_free = st.total_free ∧
    (calculate_fragmentation st).allocation_count = st.allocation_count ∧
    (∀ pA b rest, verifyH b (headAddr rest) pA = false →
      fragGo pA (b :: rest) = fragGo b.addr rest) := by
  refine ⟨rfl, rfl, rfl, rfl, ?_⟩
  intro pA b rest hv
  simp [fragGo, hv]

/-- Witness for the fragmentation-walk theorem: the walk ignores a
block with a damaged magic and the state fields are untouched. -/
theorem fragmentation_skips_corrupt_witness :
    (calculate_fragmentation init_allocator).blocks = init_allocator.blocks ∧
    fragGo 0 [badMagicBlock] = fragGo badMagicBlock.addr [] := by
  have h := fragmentation_skips_corrupt init_allocator
  exact ⟨h.1, h.2.2.2.2 0 badMagicBlock [] (by decide)⟩

end Alloc
